import Mathlib

/-!
Verification of the duckdb-version-manager `manager` package.

The Go source is shallowly embedded: the persisted inventory (`LocalConfig`)
is an association list from version keys to `LocalInstallationInfo`; the
external collaborators (release client, download/extract pipeline, clock,
compiled-in self version) are collected into an `Env` record; filesystem and
persistence side effects are recorded as an explicit list of `Event`s, and
filesystem operations themselves are modelled as succeeding (an operation's
error paths that stem purely from filesystem faults are outside the claims).
Timestamps are modelled in seconds, with the marshal/parse round-trip of
Go's RFC3339 formatting modelled as decimal serialization.
-/

namespace Manager

/-- models.LocalInstallationInfo: one locally installed binary. -/
structure LocalInstallationInfo where
  version : String
  location : String
  installationDate : String
deriving Repr, DecidableEq

/-- Go zero value of the struct, produced by indexing a map at a missing key. -/
instance : Inhabited LocalInstallationInfo := ⟨⟨"", "", ""⟩⟩

/-- A remote release as returned by the release client (only the version
identifier matters to the manager's logic). -/
structure Release where
  version : String
deriving Repr, DecidableEq

/-- The manager's own latest release, for the self-update advisory. -/
structure DuckVmRelease where
  version : String
deriving Repr, DecidableEq

/-- Errors surfaced by manager operations (stacktrace.Error values).
`nilDeref` stands for the Go panic that follows dereferencing the nil
result of an ignored-error lookup. -/
inductive Err where
  | notInstalled (version : String)
  | localNotFound (version : String)
  | remoteErr (msg : String)
  | pipelineErr (msg : String)
  | nilDeref
deriving Repr, DecidableEq

/-- Side effects of the manager, recorded in order of occurrence.
`removeArtifact` is the removal of the default-pointer file,
`symlinkFile` its creation (symlink, or copy on Windows), `saveConfig`
a rewrite of the persisted inventory, `execProc` the terminal launch. -/
inductive Event where
  | writeFile (path : String)
  | removeFile (path : String)
  | removeArtifact
  | symlinkFile (src : String) (dst : String)
  | saveConfig
  | execProc (args : List String)
deriving Repr, DecidableEq

/-- models.LocalConfig: the persisted inventory. The Go map is embedded as
an association list from version key to installation record. -/
structure LocalConfig where
  localInstallations : List (String × LocalInstallationInfo)
  defaultVersion : Option String
deriving Repr, DecidableEq

/-- External collaborators of the manager: the release client
(api.Client.GetRelease), the download-URL/fetch/extract pipeline collapsed
into one fallible step, the clock, the client's self-release lookup and the
compiled-in self version. -/
structure Env where
  getRelease : String → Except Err Release
  pipelineOk : Release → Except Err Unit
  now : Nat
  latestDuckVmRelease : Except Err DuckVmRelease
  selfVersion : String

/-- config.VersionDir (value not in src; any fixed path). -/
def VersionDir : String := "versions"

/-- config.DuckDBName (value not in src; any fixed name). -/
def DuckDBName : String := "duckdb"

/-- config.DefaultDuckdbFile (value not in src; any fixed path). -/
def DefaultDuckdbFile : String := "default-duckdb"

/-- time.Time.MarshalText, with time modelled in seconds. -/
def timeMarshal (n : Nat) : String := toString n

/-- The numeric value of a decimal digit character, if it is one. -/
def digitVal? (c : Char) : Option Nat :=
  if 48 ≤ c.toNat ∧ c.toNat ≤ 57 then some (c.toNat - 48) else none

/-- Accumulate a decimal number over characters, failing on a non-digit. -/
def natOfDigits? : List Char → Nat → Option Nat
  | [], acc => some acc
  | c :: cs, acc =>
    match digitVal? c with
    | none => none
    | some d => natOfDigits? cs (acc * 10 + d)

/-- String.toNat? over the character list: a nonempty all-digit decimal. -/
def charsToNat? (cs : List Char) : Option Nat :=
  match cs with
  | [] => none
  | _ => natOfDigits? cs 0

/-- time.Parse of the stored installation date; fails on garbage like the
Go parser. Round-trips with timeMarshal. -/
def timeParse (s : String) : Option Nat := charsToNat? s.data

/-- Go map read m[k] without the ok flag (first matching key). -/
def mapLookup (m : List (String × LocalInstallationInfo)) (k : String) :
    Option LocalInstallationInfo :=
  match m with
  | [] => none
  | (k', v) :: rest => if k' = k then some v else mapLookup rest k

/-- Go map write m[k] = v: replace the entry in place or append. -/
def mapInsert (m : List (String × LocalInstallationInfo)) (k : String)
    (v : LocalInstallationInfo) : List (String × LocalInstallationInfo) :=
  match m with
  | [] => [(k, v)]
  | (k', v') :: rest =>
    if k' = k then (k, v) :: rest else (k', v') :: mapInsert rest k v

/-- Go delete(m, k). -/
def mapDelete (m : List (String × LocalInstallationInfo)) (k : String) :
    List (String × LocalInstallationInfo) :=
  match m with
  | [] => []
  | (k', v') :: rest =>
    if k' = k then mapDelete rest k else (k', v') :: mapDelete rest k

/-- VersionIsInstalled: exact key first, then with the "v" tag prefix. -/
def VersionIsInstalled (c : LocalConfig) (version : String) : Bool :=
  match mapLookup c.localInstallations version with
  | some _ => true
  | none => (mapLookup c.localInstallations ("v" ++ version)).isSome

/-- GetLocalReleaseInfo: exact key first, then with the "v" tag prefix,
then a not-found error. -/
def GetLocalReleaseInfo (c : LocalConfig) (version : String) :
    Except Err LocalInstallationInfo :=
  match mapLookup c.localInstallations version with
  | some li => .ok li
  | none =>
    match mapLookup c.localInstallations ("v" ++ version) with
    | some li => .ok li
    | none => .error (.localNotFound version)

/-- The inventory lookup key at which a user-supplied version string
resolves, if any (the "resolved version key" of the spec's glossary). -/
def resolvedKey (c : LocalConfig) (version : String) : Option String :=
  if (mapLookup c.localInstallations version).isSome then some version
  else if (mapLookup c.localInstallations ("v" ++ version)).isSome then
    some ("v" ++ version)
  else none

/-- Result of a manager operation: the error if any, the in-memory
inventory afterwards, and the side effects that occurred, in order. -/
def OpResult := Option Err × LocalConfig × List Event

/-- InstallVersion: resolve the release remotely, fetch and extract the
binary, write it under `VersionDir`, record the entry under the release's
own version key with the current time, and persist the inventory. -/
def InstallVersion (env : Env) (c : LocalConfig) (version : String) :
    Option Err × LocalConfig × List Event :=
  match env.getRelease version with
  | .error e => (some e, c, [])
  | .ok release =>
    match env.pipelineOk release with
    | .error e => (some e, c, [])
    | .ok _ =>
      let fileLocation := VersionDir ++ "/" ++ DuckDBName ++ "-" ++ release.version
      let installTime := timeMarshal env.now
      let li : LocalInstallationInfo := ⟨release.version, fileLocation, installTime⟩
      (none,
       { c with localInstallations := mapInsert c.localInstallations release.version li },
       [.writeFile fileLocation, .saveConfig])

/-- SetDefaultVersion: remove any existing default-pointer artifact; for
`none` clear the default and persist; otherwise auto-install when absent,
look the entry up (ignored error: a miss is a nil-pointer panic), create
the artifact, record the entry's version as default, and persist. -/
def SetDefaultVersion (env : Env) (c : LocalConfig) (version : Option String) :
    Option Err × LocalConfig × List Event :=
  match version with
  | none => (none, { c with defaultVersion := none }, [.removeArtifact, .saveConfig])
  | some ver =>
    match (if VersionIsInstalled c ver then (none, c, []) else InstallVersion env c ver) with
    | (some e, c1, evs1) => (some e, c1, [Event.removeArtifact] ++ evs1)
    | (none, c1, evs1) =>
      match GetLocalReleaseInfo c1 ver with
      | .error _ => (some .nilDeref, c1, [Event.removeArtifact] ++ evs1)
      | .ok versionToInstall =>
        (none,
         { c1 with defaultVersion := some versionToInstall.version },
         [Event.removeArtifact] ++ evs1 ++
           [.symlinkFile versionToInstall.location DefaultDuckdbFile, .saveConfig])

/-- UninstallVersion: fail if the version does not resolve; clear the
default first when the resolved entry's version is the current default;
remove the binary (a missing file is tolerated), drop the map entry at the
entry's version, and persist. -/
def UninstallVersion (env : Env) (c : LocalConfig) (unreliableVersion : String) :
    Option Err × LocalConfig × List Event :=
  if VersionIsInstalled c unreliableVersion then
    match GetLocalReleaseInfo c unreliableVersion with
    | .error _ => (some .nilDeref, c, [])
    | .ok release =>
      match (if c.defaultVersion = some release.version
             then SetDefaultVersion env c none else (none, c, [])) with
      | (some e, c1, evs1) => (some e, c1, evs1)
      | (none, c1, evs1) =>
        let loc := ((mapLookup c1.localInstallations release.version).getD default).location
        (none,
         { c1 with localInstallations := mapDelete c1.localInstallations release.version },
         evs1 ++ [.removeFile loc, .saveConfig])
  else (some (.notInstalled unreliableVersion), c, [])

/-- GetDefaultVersion: nil when no default is set; otherwise the map read
at the default key (the zero value when the key is absent). -/
def GetDefaultVersion (c : LocalConfig) : Option LocalInstallationInfo :=
  match c.defaultVersion with
  | none => none
  | some d => some ((mapLookup c.localInstallations d).getD default)

/-- Run: auto-install when absent; re-resolve the entry (a miss is a
nil-pointer panic); force a re-install for a stale "nightly" entry; then
launch the binary with the location prepended to the arguments. -/
def Run (env : Env) (c : LocalConfig) (version : String) (args : List String) :
    Option Err × LocalConfig × List Event :=
  match (if VersionIsInstalled c version then (none, c, []) else InstallVersion env c version) with
  | (some e, c1, evs1) => (some e, c1, evs1)
  | (none, c1, evs1) =>
    match GetLocalReleaseInfo c1 version with
    | .error _ => (some .nilDeref, c1, evs1)
    | .ok release =>
      let installationTime := (timeParse release.installationDate).getD 0
      match (if release.version = "nightly" ∧ 24 * 3600 < env.now - installationTime
             then InstallVersion env c1 version else (none, c1, [])) with
      | (some e, c2, evs2) => (some e, c2, evs1 ++ evs2)
      | (none, c2, evs2) =>
        (none, c2, evs1 ++ evs2 ++ [.execProc (release.location :: args)])

/-- Drop a leading "v" tag from a version string's characters. -/
def stripTag : List Char → List Char
  | 'v' :: rest => rest
  | cs => cs

/-- Split a character list on dots (the semantics of String.splitOn "."). -/
def splitDot : List Char → List (List Char)
  | [] => [[]]
  | c :: cs =>
    if c = '.' then [] :: splitDot cs
    else
      match splitDot cs with
      | [] => [[c]]
      | g :: gs => (c :: g) :: gs

/-- Modelled from the spec: the numeric components of a version string for
the version-ordering comparator of §4.6 (an optional leading "v" tag is
dropped, dot-separated components are read numerically, non-numeric
components count as 0). The sorting helper utils.SortVersions is not under
src/. -/
def verKey (s : String) : List Nat :=
  (splitDot (stripTag s.data)).map (fun g => (charsToNat? g).getD 0)

/-- Sort key realizing the spec's deterministic ordering: numeric
component-wise comparison first, the raw string as tie-break. -/
def sortKey (s : String) : Lex (List Nat × String) := toLex (verKey s, s)

/-- The version-ordering comparator on version strings. -/
def verLe (a b : String) : Prop := sortKey a ≤ sortKey b

instance : DecidableRel verLe := fun a b =>
  inferInstanceAs (Decidable (sortKey a ≤ sortKey b))

instance : IsTotal String verLe := ⟨fun a b => le_total (sortKey a) (sortKey b)⟩

instance : IsTrans String verLe := ⟨fun _ _ _ h h' => le_trans h h'⟩

/-- The version-ordering comparator lifted to installation records. -/
def liiLe (a b : LocalInstallationInfo) : Prop := verLe a.version b.version

instance : DecidableRel liiLe := fun a b =>
  inferInstanceAs (Decidable (verLe a.version b.version))

instance : IsTotal LocalInstallationInfo liiLe :=
  ⟨fun a b => le_total (sortKey a.version) (sortKey b.version)⟩

instance : IsTrans LocalInstallationInfo liiLe :=
  ⟨fun _ _ _ h h' => le_trans h h'⟩

/-- Modelled from the spec: utils.Values is not under src/; §4.6 specifies
that ListInstalled returns the entries sorted by the version-ordering
comparator. -/
def Values (m : List (String × LocalInstallationInfo)) : List LocalInstallationInfo :=
  List.insertionSort liiLe (m.map Prod.snd)

/-- ListInstalledVersions: all installed entries, sorted (§4.6). -/
def ListInstalledVersions (c : LocalConfig) : List LocalInstallationInfo :=
  Values c.localInstallations

/-- LocalVersionList: the installed version strings for shell completion,
sorted with the spec-modelled utils.SortVersions comparator. -/
def LocalVersionList (c : LocalConfig) : List String :=
  List.insertionSort verLe ((ListInstalledVersions c).map (fun li => li.version))

/-- Modelled external library (hashicorp go-version NewVersion, per the
spec: "parse ... as structured version numbers"): an optional leading "v"
is accepted, every dot-separated component must be numeric, otherwise the
parse fails. -/
def parseGoVersion (s : String) : Option (List Nat) :=
  (splitDot (stripTag s.data)).mapM charsToNat?

/-- Strict lexicographic greater-than on equal-length component lists. -/
def lexGt : List Nat → List Nat → Bool
  | [], _ => false
  | _ :: _, [] => true
  | a :: as, b :: bs => a > b || (a == b && lexGt as bs)

/-- Modelled external library (go-version GreaterThan): component-wise
numeric comparison, the shorter list padded with zeros. -/
def keyGt (a b : List Nat) : Bool :=
  let n := max a.length b.length
  lexGt (a ++ List.replicate (n - a.length) 0) (b ++ List.replicate (n - b.length) 0)

/-- Observable outcome of the self-update advisory: no output, the one-line
advisory, or a panic (version.Must on an unparseable version). -/
inductive UpdateOutcome where
  | silent
  | printed
  | panicked
deriving Repr, DecidableEq

/-- ShowUpdateWarning: on a client error return silently; otherwise parse
the remote and the compiled-in version with version.Must (panicking on a
parse failure) and print the advisory when remote is strictly greater. -/
def ShowUpdateWarning (env : Env) : UpdateOutcome :=
  match env.latestDuckVmRelease with
  | .error _ => .silent
  | .ok latestRelease =>
    match parseGoVersion latestRelease.version with
    | none => .panicked
    | some remoteVersion =>
      match parseGoVersion env.selfVersion with
      | none => .panicked
      | some localVersion =>
        if keyGt remoteVersion localVersion then .printed else .silent

/-- A manager operation, for stating properties of operation sequences. -/
inductive Op where
  | install (version : String)
  | uninstall (version : String)
  | setDefault (version : Option String)
  | run (version : String) (args : List String)

/-- Dispatch one operation against the inventory. -/
def applyOp (env : Env) (c : LocalConfig) : Op → Option Err × LocalConfig × List Event
  | .install v => InstallVersion env c v
  | .uninstall v => UninstallVersion env c v
  | .setDefault v => SetDefaultVersion env c v
  | .run v args => Run env c v args

/-- Thread a sequence of operations through the in-memory inventory. -/
def runOps (env : Env) (c : LocalConfig) : List Op → LocalConfig
  | [] => c
  | op :: ops => runOps env (applyOp env c op).2.1 ops

/-- Well-formed inventory: every entry's version field equals its map key
(every inventory the code itself writes is of this shape, since install
records the entry under its own version). -/
def WFConfig (c : LocalConfig) : Prop :=
  ∀ p ∈ c.localInstallations, p.2.version = p.1

/-- No dangling default: a set defaultVersion names a present key. -/
def DefaultOK (c : LocalConfig) : Prop :=
  ∀ d, c.defaultVersion = some d → (mapLookup c.localInstallations d).isSome = true

/-- The number of binary installations (writes of a versioned binary file)
in an event trace. -/
def countInstalls (evs : List Event) : Nat :=
  evs.countP (fun e => match e with | .writeFile _ => true | _ => false)

/-- Whether a resolution succeeded. -/
def isOkResult (r : Except Err LocalInstallationInfo) : Bool :=
  match r with
  | .ok _ => true
  | .error _ => false

theorem mapLookup_mapInsert (m : List (String × LocalInstallationInfo)) (k d : String)
    (v : LocalInstallationInfo) :
    mapLookup (mapInsert m k v) d = if d = k then some v else mapLookup m d := by
  induction m with
  | nil =>
    by_cases h : k = d
    · subst h; simp [mapInsert, mapLookup]
    · simp [mapInsert, mapLookup, h, Ne.symm h]
  | cons p rest ih =>
    obtain ⟨k', v'⟩ := p
    by_cases h : k' = k
    · subst h
      by_cases hd : k' = d
      · subst hd; simp [mapInsert, mapLookup]
      · simp [mapInsert, mapLookup, hd, Ne.symm hd]
    · by_cases hd : k' = d
      · subst hd
        simp [mapInsert, mapLookup, h, Ne.symm h]
      · simp [mapInsert, mapLookup, h, hd, ih]

theorem mapLookup_mapDelete (m : List (String × LocalInstallationInfo)) (k d : String) :
    mapLookup (mapDelete m k) d = if d = k then none else mapLookup m d := by
  induction m with
  | nil => simp [mapDelete, mapLookup]
  | cons p rest ih =>
    obtain ⟨k', v'⟩ := p
    by_cases h : k' = k
    · subst h
      by_cases hd : d = k'
      · subst hd; simp [mapDelete, mapLookup, ih]
      · simp [mapDelete, mapLookup, ih, hd, Ne.symm hd]
    · by_cases hd : k' = d
      · subst hd
        simp [mapDelete, mapLookup, h, ih]
      · simp [mapDelete, mapLookup, h, hd, ih]

theorem mapLookup_mem {m : List (String × LocalInstallationInfo)} {k : String}
    {li : LocalInstallationInfo} (h : mapLookup m k = some li) : (k, li) ∈ m := by
  induction m with
  | nil => simp [mapLookup] at h
  | cons p rest ih =>
    obtain ⟨k', v'⟩ := p
    by_cases hk : k' = k
    · subst hk
      rw [show mapLookup ((k', v') :: rest) k' = some v' by simp [mapLookup]] at h
      cases h
      exact List.mem_cons_self _ _
    · rw [show mapLookup ((k', v') :: rest) k = mapLookup rest k by simp [mapLookup, hk]] at h
      exact List.mem_cons_of_mem _ (ih h)

theorem mem_mapInsert {m : List (String × LocalInstallationInfo)} {k : String}
    {v : LocalInstallationInfo} {p : String × LocalInstallationInfo}
    (h : p ∈ mapInsert m k v) : p = (k, v) ∨ p ∈ m := by
  induction m with
  | nil => simpa [mapInsert] using h
  | cons q rest ih =>
    obtain ⟨k', v'⟩ := q
    simp only [mapInsert] at h
    by_cases hk : k' = k
    · rw [if_pos hk] at h
      rcases List.mem_cons.mp h with h1 | h2
      · exact Or.inl h1
      · exact Or.inr (List.mem_cons_of_mem _ h2)
    · rw [if_neg hk] at h
      rcases List.mem_cons.mp h with h1 | h2
      · exact Or.inr (h1 ▸ List.mem_cons_self _ _)
      · rcases ih h2 with h3 | h4
        · exact Or.inl h3
        · exact Or.inr (List.mem_cons_of_mem _ h4)

theorem mem_mapDelete {m : List (String × LocalInstallationInfo)} {k : String}
    {p : String × LocalInstallationInfo} (h : p ∈ mapDelete m k) : p ∈ m := by
  induction m with
  | nil => simp [mapDelete] at h
  | cons q rest ih =>
    obtain ⟨k', v'⟩ := q
    by_cases hk : k' = k
    · rw [show mapDelete ((k', v') :: rest) k = mapDelete rest k by simp [mapDelete, hk]] at h
      exact List.mem_cons_of_mem _ (ih h)
    · rw [show mapDelete ((k', v') :: rest) k = (k', v') :: mapDelete rest k by
        simp [mapDelete, hk]] at h
      rcases List.mem_cons.mp h with h1 | h2
      · exact h1 ▸ List.mem_cons_self _ _
      · exact List.mem_cons_of_mem _ (ih h2)

theorem getLocalReleaseInfo_ok {c : LocalConfig} {s : String} {li : LocalInstallationInfo}
    (h : GetLocalReleaseInfo c s = .ok li) :
    mapLookup c.localInstallations s = some li ∨
      (mapLookup c.localInstallations s = none ∧
        mapLookup c.localInstallations ("v" ++ s) = some li) := by
  unfold GetLocalReleaseInfo at h
  cases h1 : mapLookup c.localInstallations s with
  | some li' =>
    rw [h1] at h
    cases h
    exact Or.inl rfl
  | none =>
    rw [h1] at h
    cases h2 : mapLookup c.localInstallations ("v" ++ s) with
    | some li' =>
      rw [h2] at h
      cases h
      exact Or.inr ⟨rfl, rfl⟩
    | none => rw [h2] at h; cases h

theorem wf_lookup_version {c : LocalConfig} (hwf : WFConfig c) {k : String}
    {li : LocalInstallationInfo} (h : mapLookup c.localInstallations k = some li) :
    li.version = k :=
  hwf (k, li) (mapLookup_mem h)

theorem getLocalReleaseInfo_self_lookup {c : LocalConfig} (hwf : WFConfig c) {s : String}
    {li : LocalInstallationInfo} (h : GetLocalReleaseInfo c s = .ok li) :
    mapLookup c.localInstallations li.version = some li := by
  rcases getLocalReleaseInfo_ok h with h1 | ⟨_, h2⟩
  · rw [wf_lookup_version hwf h1]; exact h1
  · rw [wf_lookup_version hwf h2]; exact h2

theorem installVersion_inv (env : Env) (c : LocalConfig) (s : String)
    (hwf : WFConfig c) (hok : DefaultOK c) :
    WFConfig (InstallVersion env c s).2.1 ∧ DefaultOK (InstallVersion env c s).2.1 ∧
      (InstallVersion env c s).2.1.defaultVersion = c.defaultVersion := by
  rcases hr : env.getRelease s with e | release
  · simp only [InstallVersion, hr]
    exact ⟨hwf, hok, by trivial⟩
  · rcases hp : env.pipelineOk release with e | u
    · simp only [InstallVersion, hr, hp]
      exact ⟨hwf, hok, by trivial⟩
    · simp only [InstallVersion, hr, hp]
      refine ⟨?_, ?_, by trivial⟩
      · intro p hp'
        rcases mem_mapInsert hp' with h1 | h2
        · rw [h1]
        · exact hwf p h2
      · intro d hd
        rw [mapLookup_mapInsert]
        by_cases hdk : d = release.version
        · simp [hdk]
        · rw [if_neg hdk]
          exact hok d hd

theorem setDefaultVersion_inv (env : Env) (c : LocalConfig) (vo : Option String)
    (hwf : WFConfig c) (hok : DefaultOK c) :
    WFConfig (SetDefaultVersion env c vo).2.1 ∧ DefaultOK (SetDefaultVersion env c vo).2.1 := by
  cases vo with
  | none =>
    simp only [SetDefaultVersion]
    exact ⟨hwf, fun d hd => by simp at hd⟩
  | some ver =>
    have hstep : WFConfig (if VersionIsInstalled c ver then ((none, c, []) :
          Option Err × LocalConfig × List Event) else InstallVersion env c ver).2.1 ∧
        DefaultOK (if VersionIsInstalled c ver then ((none, c, []) :
          Option Err × LocalConfig × List Event) else InstallVersion env c ver).2.1 := by
      by_cases hi : VersionIsInstalled c ver
      · simp only [if_pos hi]; exact ⟨hwf, hok⟩
      · simp only [if_neg hi]
        exact ⟨(installVersion_inv env c ver hwf hok).1, (installVersion_inv env c ver hwf hok).2.1⟩
    rcases hstepEq : (if VersionIsInstalled c ver then ((none, c, []) :
        Option Err × LocalConfig × List Event) else InstallVersion env c ver) with ⟨err1, c1, evs1⟩
    rw [hstepEq] at hstep
    obtain ⟨hwf1, hok1⟩ := hstep
    cases err1 with
    | some e =>
      simp only [SetDefaultVersion, hstepEq]
      exact ⟨hwf1, hok1⟩
    | none =>
      rcases hg : GetLocalReleaseInfo c1 ver with e | vti
      · simp only [SetDefaultVersion, hstepEq, hg]
        exact ⟨hwf1, hok1⟩
      · simp only [SetDefaultVersion, hstepEq, hg]
        refine ⟨hwf1, ?_⟩
        intro d hd
        simp only [Option.some.injEq] at hd
        subst hd
        rw [getLocalReleaseInfo_self_lookup hwf1 hg]
        rfl

theorem uninstallVersion_inv (env : Env) (c : LocalConfig) (s : String)
    (hwf : WFConfig c) (hok : DefaultOK c) :
    WFConfig (UninstallVersion env c s).2.1 ∧ DefaultOK (UninstallVersion env c s).2.1 := by
  by_cases hi : VersionIsInstalled c s
  · simp only [UninstallVersion, if_pos hi]
    rcases hg : GetLocalReleaseInfo c s with e | release
    · exact ⟨hwf, hok⟩
    · by_cases hd : c.defaultVersion = some release.version
      · simp only [if_pos hd, SetDefaultVersion]
        refine ⟨?_, ?_⟩
        · intro p hp
          exact hwf p (mem_mapDelete hp)
        · intro d hdd
          simp at hdd
      · simp only [if_neg hd]
        refine ⟨?_, ?_⟩
        · intro p hp
          exact hwf p (mem_mapDelete hp)
        · intro d hdd
          simp only at hdd
          rw [mapLookup_mapDelete]
          have hdne : d ≠ release.version := by
            intro hc
            exact hd (by rw [← hc]; exact hdd)
          rw [if_neg hdne]
          exact hok d hdd
  · simp only [UninstallVersion, if_neg hi]
    exact ⟨hwf, hok⟩

theorem run_inv (env : Env) (c : LocalConfig) (s : String) (args : List String)
    (hwf : WFConfig c) (hok : DefaultOK c) :
    WFConfig (Run env c s args).2.1 ∧ DefaultOK (Run env c s args).2.1 := by
  have hstep : WFConfig (if VersionIsInstalled c s then ((none, c, []) :
        Option Err × LocalConfig × List Event) else InstallVersion env c s).2.1 ∧
      DefaultOK (if VersionIsInstalled c s then ((none, c, []) :
        Option Err × LocalConfig × List Event) else InstallVersion env c s).2.1 := by
    by_cases hi : VersionIsInstalled c s
    · simp only [if_pos hi]; exact ⟨hwf, hok⟩
    · simp only [if_neg hi]
      exact ⟨(installVersion_inv env c s hwf hok).1, (installVersion_inv env c s hwf hok).2.1⟩
  rcases hstepEq : (if VersionIsInstalled c s then ((none, c, []) :
      Option Err × LocalConfig × List Event) else InstallVersion env c s) with ⟨err1, c1, evs1⟩
  rw [hstepEq] at hstep
  obtain ⟨hwf1, hok1⟩ := hstep
  cases err1 with
  | some e =>
    simp only [Run, hstepEq]
    exact ⟨hwf1, hok1⟩
  | none =>
    rcases hg : GetLocalReleaseInfo c1 s with e | release
    · simp only [Run, hstepEq, hg]
      exact ⟨hwf1, hok1⟩
    · have hstep2 : WFConfig (if release.version = "nightly" ∧
            24 * 3600 < env.now - (timeParse release.installationDate).getD 0
          then InstallVersion env c1 s else ((none, c1, []) :
            Option Err × LocalConfig × List Event)).2.1 ∧
          DefaultOK (if release.version = "nightly" ∧
            24 * 3600 < env.now - (timeParse release.installationDate).getD 0
          then InstallVersion env c1 s else ((none, c1, []) :
            Option Err × LocalConfig × List Event)).2.1 := by
        by_cases hn : release.version = "nightly" ∧
            24 * 3600 < env.now - (timeParse release.installationDate).getD 0
        · simp only [if_pos hn]
          exact ⟨(installVersion_inv env c1 s hwf1 hok1).1,
            (installVersion_inv env c1 s hwf1 hok1).2.1⟩
        · simp only [if_neg hn]; exact ⟨hwf1, hok1⟩
      rcases hstep2Eq : (if release.version = "nightly" ∧
          24 * 3600 < env.now - (timeParse release.installationDate).getD 0
        then InstallVersion env c1 s else ((none, c1, []) :
          Option Err × LocalConfig × List Event)) with ⟨err2, c2, evs2⟩
      rw [hstep2Eq] at hstep2
      obtain ⟨hwf2, hok2⟩ := hstep2
      cases err2 with
      | some e =>
        simp only [Run, hstepEq, hg, hstep2Eq]
        exact ⟨hwf2, hok2⟩
      | none =>
        simp only [Run, hstepEq, hg, hstep2Eq]
        exact ⟨hwf2, hok2⟩

theorem applyOp_inv (env : Env) (c : LocalConfig) (op : Op)
    (hwf : WFConfig c) (hok : DefaultOK c) :
    WFConfig (applyOp env c op).2.1 ∧ DefaultOK (applyOp env c op).2.1 := by
  cases op with
  | install v =>
    exact ⟨(installVersion_inv env c v hwf hok).1, (installVersion_inv env c v hwf hok).2.1⟩
  | uninstall v => exact uninstallVersion_inv env c v hwf hok
  | setDefault v => exact setDefaultVersion_inv env c v hwf hok
  | run v args => exact run_inv env c v args hwf hok

theorem runOps_inv (env : Env) (ops : List Op) (c : LocalConfig)
    (hwf : WFConfig c) (hok : DefaultOK c) :
    WFConfig (runOps env c ops) ∧ DefaultOK (runOps env c ops) := by
  induction ops generalizing c with
  | nil => exact ⟨hwf, hok⟩
  | cons op ops ih =>
    have h := applyOp_inv env c op hwf hok
    exact ih (applyOp env c op).2.1 h.1 h.2

theorem sorted_perm_eq {α : Type} {r : α → α → Prop} :
    ∀ (l₁ l₂ : List α), l₁.Perm l₂ → List.Sorted r l₁ → List.Sorted r l₂ →
      (∀ a ∈ l₁, ∀ b ∈ l₁, r a b → r b a → a = b) → l₁ = l₂
  | [], _, hp, _, _, _ => hp.nil_eq
  | _ :: _, [], hp, _, _, _ => absurd hp.symm.nil_eq (by simp)
  | a :: t₁, b :: t₂, hp, hs₁, hs₂, ha => by
    have hab : a = b := by
      by_cases h : a = b
      · exact h
      · have hbmem : b ∈ a :: t₁ := hp.symm.subset (List.mem_cons_self b t₂)
        have hamem : a ∈ b :: t₂ := hp.subset (List.mem_cons_self a t₁)
        have hbt : b ∈ t₁ := by
          rcases List.mem_cons.mp hbmem with h1 | h2
          · exact absurd h1.symm h
          · exact h2
        have hat : a ∈ t₂ := by
          rcases List.mem_cons.mp hamem with h1 | h2
          · exact absurd h1 h
          · exact h2
        have hrab : r a b := (List.sorted_cons.mp hs₁).1 b hbt
        have hrba : r b a := (List.sorted_cons.mp hs₂).1 a hat
        exact ha a (List.mem_cons_self a t₁) b (List.mem_cons_of_mem a hbt) hrab hrba
    subst hab
    have htail : t₁ = t₂ :=
      sorted_perm_eq t₁ t₂ hp.cons_inv (List.sorted_cons.mp hs₁).2 (List.sorted_cons.mp hs₂).2
        (fun x hx y hy hr hr' =>
          ha x (List.mem_cons_of_mem a hx) y (List.mem_cons_of_mem a hy) hr hr')
    rw [htail]

theorem sortKey_inj {s t : String} (h : sortKey s = sortKey t) : s = t :=
  congrArg (fun x => (ofLex x).2) h

theorem liiLe_antisymm_version {a b : LocalInstallationInfo}
    (h1 : liiLe a b) (h2 : liiLe b a) : a.version = b.version :=
  sortKey_inj (le_antisymm h1 h2)

/-- Claim C7: ListInstalled returns all installed entries, sorted ascending
by the numeric component-wise (non-lexicographic) version comparator, and
deterministically: the output is independent of the insertion order of the
inventory's entries (stated for inventories whose entries carry pairwise
distinct version fields, which holds for every inventory the code writes,
since each entry is recorded under its own version as the unique map key).
The sorting helper is spec-modelled, as utils.Values/utils.SortVersions are
not under src/. -/
theorem listInstalled_sorted_deterministic :
    ∀ c : LocalConfig,
      (ListInstalledVersions c).Perm (c.localInstallations.map Prod.snd) ∧
      List.Sorted liiLe (ListInstalledVersions c) ∧
      (∀ c₂ : LocalConfig, c.localInstallations.Perm c₂.localInstallations →
        (c.localInstallations.map (fun p => p.2.version)).Nodup →
        ListInstalledVersions c = ListInstalledVersions c₂) := by
  intro c
  refine ⟨List.perm_insertionSort liiLe _, List.sorted_insertionSort liiLe _, ?_⟩
  intro c₂ hperm hnd
  have hl : (c.localInstallations.map Prod.snd).Perm (c₂.localInstallations.map Prod.snd) :=
    hperm.map Prod.snd
  have hs : (ListInstalledVersions c).Perm (ListInstalledVersions c₂) :=
    ((List.perm_insertionSort liiLe _).trans hl).trans (List.perm_insertionSort liiLe _).symm
  have hndl : ((c.localInstallations.map Prod.snd).map (fun li => li.version)).Nodup := by
    rw [List.map_map]
    exact hnd
  refine sorted_perm_eq _ _ hs (List.sorted_insertionSort liiLe _)
    (List.sorted_insertionSort liiLe _) ?_
  intro a hamem b hbmem h1 h2
  have ha' : a ∈ c.localInstallations.map Prod.snd :=
    (List.mem_insertionSort liiLe).mp hamem
  have hb' : b ∈ c.localInstallations.map Prod.snd :=
    (List.mem_insertionSort liiLe).mp hbmem
  exact List.inj_on_of_nodup_map hndl ha' hb' (liiLe_antisymm_version h1 h2)

/-- Claim C7 witness: a two-entry inventory yields the same sorted listing
under either insertion order ("v0.9.2" before "v0.10.0" numerically, though
not lexicographically). -/
theorem listInstalled_sorted_deterministic_witness :
    ListInstalledVersions
        ⟨[("v0.10.0", ⟨"v0.10.0", "b", "1"⟩), ("v0.9.2", ⟨"v0.9.2", "a", "0"⟩)], none⟩ =
      ListInstalledVersions
        ⟨[("v0.9.2", ⟨"v0.9.2", "a", "0"⟩), ("v0.10.0", ⟨"v0.10.0", "b", "1"⟩)], none⟩ :=
  (listInstalled_sorted_deterministic
      ⟨[("v0.10.0", ⟨"v0.10.0", "b", "1"⟩), ("v0.9.2", ⟨"v0.9.2", "a", "0"⟩)], none⟩).2.2
    ⟨[("v0.9.2", ⟨"v0.9.2", "a", "0"⟩), ("v0.10.0", ⟨"v0.10.0", "b", "1"⟩)], none⟩
    (by decide) (by decide)

theorem installVersion_success {env : Env} {c : LocalConfig} {s : String}
    {c' : LocalConfig} {evs : List Event}
    (h : InstallVersion env c s = (none, c', evs)) :
    ∃ rel, env.getRelease s = .ok rel ∧
      c' = { c with localInstallations :=
          (mapInsert c.localInstallations rel.version
            ⟨rel.version, VersionDir ++ "/" ++ DuckDBName ++ "-" ++ rel.version,
              timeMarshal env.now⟩) } ∧
      evs = [.writeFile (VersionDir ++ "/" ++ DuckDBName ++ "-" ++ rel.version),
        .saveConfig] := by
  rcases hr : env.getRelease s with e | rel
  · simp [InstallVersion, hr] at h
  · rcases hp : env.pipelineOk rel with e | u
    · simp [InstallVersion, hr, hp] at h
    · simp only [InstallVersion, hr, hp, Prod.mk.injEq, true_and] at h
      exact ⟨rel, rfl, h.1.symm, h.2.symm⟩

/-- An offline release client over an arbitrary clock; used to pin down
concrete scenarios that perform no remote access. -/
def envOffline : Env :=
  { getRelease := fun _ => .error (.remoteErr "offline")
    pipelineOk := fun _ => .ok ()
    now := 0
    latestDuckVmRelease := .error (.remoteErr "offline")
    selfVersion := "1.0.0" }

/-- A release client that resolves every query to its tag-prefixed release
(the catalog convention of §4.1). -/
def envTagged : Env :=
  { getRelease := fun s => .ok ⟨"v" ++ s⟩
    pipelineOk := fun _ => .ok ()
    now := 0
    latestDuckVmRelease := .error (.remoteErr "offline")
    selfVersion := "1.0.0" }

/-- Claim C1: prefix-tolerant resolution. VersionIsInstalled(s) is true iff
the installed map holds the key s or the key "v" ++ s; GetLocalReleaseInfo(s)
returns the entry under s, else the entry under "v" ++ s, else a not-found
error; and after a successful Install(v) that records the tag-prefixed key,
both VersionIsInstalled(v) and VersionIsInstalled("v" ++ v) are true. -/
theorem resolution_tag_tolerant :
    (∀ (c : LocalConfig) (s : String),
      VersionIsInstalled c s = true ↔
        ((mapLookup c.localInstallations s).isSome = true ∨
         (mapLookup c.localInstallations ("v" ++ s)).isSome = true)) ∧
    (∀ (c : LocalConfig) (s : String) (li : LocalInstallationInfo),
      mapLookup c.localInstallations s = some li → GetLocalReleaseInfo c s = .ok li) ∧
    (∀ (c : LocalConfig) (s : String) (li : LocalInstallationInfo),
      mapLookup c.localInstallations s = none →
      mapLookup c.localInstallations ("v" ++ s) = some li →
      GetLocalReleaseInfo c s = .ok li) ∧
    (∀ (c : LocalConfig) (s : String),
      mapLookup c.localInstallations s = none →
      mapLookup c.localInstallations ("v" ++ s) = none →
      GetLocalReleaseInfo c s = .error (.localNotFound s)) ∧
    (∀ (env : Env) (c : LocalConfig) (s : String) (rel : Release)
        (c' : LocalConfig) (evs : List Event),
      env.getRelease s = .ok rel → rel.version = "v" ++ s →
      InstallVersion env c s = (none, c', evs) →
      VersionIsInstalled c' s = true ∧ VersionIsInstalled c' ("v" ++ s) = true) := by
  refine ⟨?_, ?_, ?_, ?_, ?_⟩
  · intro c s
    unfold VersionIsInstalled
    cases h1 : mapLookup c.localInstallations s with
    | some li => simp [h1]
    | none => cases h2 : mapLookup c.localInstallations ("v" ++ s) <;> simp [h2]
  · intro c s li h1
    simp [GetLocalReleaseInfo, h1]
  · intro c s li h1 h2
    simp [GetLocalReleaseInfo, h1, h2]
  · intro c s h1 h2
    simp [GetLocalReleaseInfo, h1, h2]
  · intro env c s rel c' evs hr hpv h
    obtain ⟨rel', hr', hc', _⟩ := installVersion_success h
    rw [hr] at hr'
    cases hr'
    subst hc'
    have hpref : mapLookup
        (mapInsert c.localInstallations rel.version
          ⟨rel.version, VersionDir ++ "/" ++ DuckDBName ++ "-" ++ rel.version,
            timeMarshal env.now⟩) ("v" ++ s) =
        some ⟨rel.version, VersionDir ++ "/" ++ DuckDBName ++ "-" ++ rel.version,
          timeMarshal env.now⟩ := by
      rw [mapLookup_mapInsert, if_pos hpv.symm]
    constructor
    · unfold VersionIsInstalled
      cases hx : mapLookup (mapInsert c.localInstallations rel.version
          ⟨rel.version, VersionDir ++ "/" ++ DuckDBName ++ "-" ++ rel.version,
            timeMarshal env.now⟩) s with
      | some li => rfl
      | none => simp [hpref]
    · unfold VersionIsInstalled
      rw [hpref]

/-- Claim C1 witness: installing "0.9.2" against a catalog that stores the
release under "v0.9.2" makes both lookups succeed. -/
theorem resolution_tag_tolerant_witness :
    VersionIsInstalled (InstallVersion envTagged ⟨[], none⟩ "0.9.2").2.1 "0.9.2" = true ∧
    VersionIsInstalled (InstallVersion envTagged ⟨[], none⟩ "0.9.2").2.1 "v0.9.2" = true :=
  resolution_tag_tolerant.2.2.2.2 envTagged ⟨[], none⟩ "0.9.2" ⟨"v0.9.2"⟩
    (InstallVersion envTagged ⟨[], none⟩ "0.9.2").2.1
    (InstallVersion envTagged ⟨[], none⟩ "0.9.2").2.2 rfl rfl rfl

/-- Claim C9: the two resolution entry points agree: VersionIsInstalled(s)
is true exactly when GetLocalReleaseInfo(s) returns an entry rather than an
error (both are pure functions of the inventory in this embedding, so
neither mutates it). -/
theorem resolution_agreement :
    ∀ (c : LocalConfig) (s : String),
      VersionIsInstalled c s = isOkResult (GetLocalReleaseInfo c s) := by
  intro c s
  unfold VersionIsInstalled GetLocalReleaseInfo isOkResult
  cases h1 : mapLookup c.localInstallations s with
  | some li => rfl
  | none => cases h2 : mapLookup c.localInstallations ("v" ++ s) <;> rfl

/-- Claim C10: GetDefaultVersion returns none exactly when defaultVersion is
unset; when set it returns the map read at that key, which is the zero-value
record (empty fields) when the key is absent — presence is not checked. -/
theorem getDefault_zero_value :
    ∀ c : LocalConfig,
      (GetDefaultVersion c = none ↔ c.defaultVersion = none) ∧
      (∀ d, c.defaultVersion = some d →
        GetDefaultVersion c = some ((mapLookup c.localInstallations d).getD ⟨"", "", ""⟩)) ∧
      (∀ d, c.defaultVersion = some d → mapLookup c.localInstallations d = none →
        GetDefaultVersion c = some ⟨"", "", ""⟩) := by
  intro c
  cases hd : c.defaultVersion with
  | none =>
    refine ⟨by simp [GetDefaultVersion, hd], ?_, ?_⟩
    · intro d hds; cases hds
    · intro d hds _; cases hds
  | some d0 =>
    refine ⟨by simp [GetDefaultVersion, hd], ?_, ?_⟩
    · intro d hds
      cases hds
      unfold GetDefaultVersion
      rw [hd]
      rfl
    · intro d hds hmiss
      cases hds
      unfold GetDefaultVersion
      rw [hd]
      simp [hmiss]
      rfl

/-- Claim C10 witness: with a default naming an absent key, the zero-value
record is returned rather than none or an error. -/
theorem getDefault_zero_value_witness :
    GetDefaultVersion ⟨[], some "v9.9.9"⟩ = some ⟨"", "", ""⟩ :=
  (getDefault_zero_value ⟨[], some "v9.9.9"⟩).2.2 "v9.9.9" rfl rfl

/-- Claim C4: Uninstall of a version whose resolved key is absent fails with
the not-installed error, leaves the inventory unchanged and performs no side
effect (in particular no write of the persisted inventory). -/
theorem uninstall_missing_fails :
    ∀ (env : Env) (c : LocalConfig) (s : String),
      mapLookup c.localInstallations s = none →
      mapLookup c.localInstallations ("v" ++ s) = none →
      UninstallVersion env c s = (some (.notInstalled s), c, []) := by
  intro env c s h1 h2
  have hvi : VersionIsInstalled c s = false := by
    unfold VersionIsInstalled
    rw [h1, h2]
    rfl
  simp [UninstallVersion, hvi]

/-- Claim C4 witness: uninstalling "1.2.3" from an inventory that holds only
"v0.9.2" errors and changes nothing. -/
theorem uninstall_missing_fails_witness :
    UninstallVersion envOffline ⟨[("v0.9.2", ⟨"v0.9.2", "loc", "0"⟩)], none⟩ "1.2.3" =
      (some (.notInstalled "1.2.3"), ⟨[("v0.9.2", ⟨"v0.9.2", "loc", "0"⟩)], none⟩, []) :=
  uninstall_missing_fails envOffline ⟨[("v0.9.2", ⟨"v0.9.2", "loc", "0"⟩)], none⟩ "1.2.3"
    (by decide) (by decide)

/-- Claim C2 (amended with inventory well-formedness): starting from an
inventory in which every entry's version field equals its map key and in
which defaultVersion, if set, names a present key, every sequence of
manager operations (Install, Uninstall, SetDefault, Run) leaves the
inventory well-formed and with no dangling default. -/
theorem inventory_no_dangling_default :
    ∀ (env : Env) (ops : List Op) (c : LocalConfig),
      WFConfig c → DefaultOK c →
      WFConfig (runOps env c ops) ∧ DefaultOK (runOps env c ops) :=
  fun env ops c hwf hok => runOps_inv env ops c hwf hok

/-- Claim C2 witness: uninstalling the default and then setting a new,
not-yet-installed default keeps the inventory free of dangling defaults. -/
theorem inventory_no_dangling_default_witness :
    WFConfig (runOps envTagged ⟨[("v1.0.0", ⟨"v1.0.0", "loc", "0"⟩)], some "v1.0.0"⟩
        [.uninstall "1.0.0", .setDefault (some "2.0.0")]) ∧
    DefaultOK (runOps envTagged ⟨[("v1.0.0", ⟨"v1.0.0", "loc", "0"⟩)], some "v1.0.0"⟩
        [.uninstall "1.0.0", .setDefault (some "2.0.0")]) :=
  inventory_no_dangling_default envTagged [.uninstall "1.0.0", .setDefault (some "2.0.0")]
    ⟨[("v1.0.0", ⟨"v1.0.0", "loc", "0"⟩)], some "v1.0.0"⟩
    (by unfold WFConfig; decide) (by intro d hd; cases hd; decide)

/-- Claim C2 counterexample: from an inventory satisfying only the claim's
stated precondition (the default, if set, names a present key) but whose
entry's version field differs from its key, a single successful SetDefault
records that field as the default, which names no key: the operation
returns without error yet leaves a dangling default. -/
theorem inventory_no_dangling_default_counterexample :
    (applyOp envOffline ⟨[("abc", ⟨"xyz", "loc", "0"⟩)], none⟩
        (.setDefault (some "abc"))).1 = none ∧
    (applyOp envOffline ⟨[("abc", ⟨"xyz", "loc", "0"⟩)], none⟩
        (.setDefault (some "abc"))).2.1.defaultVersion = some "xyz" ∧
    mapLookup (applyOp envOffline ⟨[("abc", ⟨"xyz", "loc", "0"⟩)], none⟩
        (.setDefault (some "abc"))).2.1.localInstallations "xyz" = none := by
  decide

/-- Claim C8 (amended): the self-update advisory silently returns on any
release-client error (timeout, network); when the release is obtained and
both the remote and the compiled-in versions parse, it prints the one-line
advisory iff the remote version is strictly greater; an unparseable
version, however, panics (version.Must) rather than silently returning. -/
theorem showUpdateWarning_amended :
    (∀ (env : Env) (e : Err), env.latestDuckVmRelease = .error e →
      ShowUpdateWarning env = .silent) ∧
    (∀ (env : Env) (rel : DuckVmRelease) (rk lk : List Nat),
      env.latestDuckVmRelease = .ok rel →
      parseGoVersion rel.version = some rk →
      parseGoVersion env.selfVersion = some lk →
      ShowUpdateWarning env = (if keyGt rk lk then .printed else .silent)) := by
  constructor
  · intro env e h
    simp [ShowUpdateWarning, h]
  · intro env rel rk lk h hr hl
    simp [ShowUpdateWarning, h, hr, hl]

/-- A release client whose self-release carries an unparseable version. -/
def envBadVersion : Env :=
  { getRelease := fun _ => .error (.remoteErr "offline")
    pipelineOk := fun _ => .ok ()
    now := 0
    latestDuckVmRelease := .ok ⟨"not-a-version"⟩
    selfVersion := "1.0.0" }

/-- Claim C8 counterexample: a version-parse error does not silently
return — ShowUpdateWarning panics (version.Must), failing the invoking
command. -/
theorem showUpdateWarning_counterexample :
    ShowUpdateWarning envBadVersion = .panicked ∧
      UpdateOutcome.panicked ≠ UpdateOutcome.silent := by
  decide

/-- A release client reporting a newer self-release than the compiled-in
version. -/
def envAdvisory : Env :=
  { getRelease := fun _ => .error (.remoteErr "offline")
    pipelineOk := fun _ => .ok ()
    now := 0
    latestDuckVmRelease := .ok ⟨"9.9.9"⟩
    selfVersion := "1.0.0" }

/-- Claim C8 witness: a parseable, strictly newer remote version prints the
advisory. -/
theorem showUpdateWarning_amended_witness :
    ShowUpdateWarning envAdvisory = .printed := by
  have h := showUpdateWarning_amended.2 envAdvisory ⟨"9.9.9"⟩ [9, 9, 9] [1, 0, 0]
    rfl (by decide) (by decide)
  rw [h]
  decide

/-- Claim C6: for an already-installed version, Run forces a re-install
before launching iff the resolved entry's identifier equals the rolling tag
"nightly" and its installation time lies more than 24 hours before the
current time. -/
theorem run_nightly_freshness :
    ∀ (env : Env) (c : LocalConfig) (s : String) (args : List String)
      (li : LocalInstallationInfo) (t : Nat) (c' : LocalConfig) (evs : List Event),
      VersionIsInstalled c s = true →
      GetLocalReleaseInfo c s = .ok li →
      timeParse li.installationDate = some t →
      Run env c s args = (none, c', evs) →
      countInstalls evs =
        (if li.version = "nightly" ∧ 24 * 3600 < env.now - t then 1 else 0) := by
  intro env c s args li t c' evs hvi hg ht h
  by_cases hn : li.version = "nightly" ∧ 24 * 3600 < env.now - t
  · rw [if_pos hn]
    rcases hI : InstallVersion env c s with ⟨e1, c2, evs2⟩
    cases e1 with
    | some e =>
      exfalso
      simp only [Run, hvi, if_pos, hg, ht, Option.getD_some, if_pos hn, hI] at h
      simp at h
    | none =>
      obtain ⟨rel, _, _, hevs2⟩ := installVersion_success hI
      simp only [Run, hvi, if_pos, hg, ht, Option.getD_some, if_pos hn, hI] at h
      have hevs : evs = [] ++ evs2 ++ [Event.execProc (li.location :: args)] := by
        simp only [Prod.mk.injEq] at h
        exact h.2.2.symm
      rw [hevs, hevs2]
      rfl
  · rw [if_neg hn]
    simp only [Run, hvi, if_pos, hg, ht, Option.getD_some, if_neg hn] at h
    have hevs : evs = [] ++ [] ++ [Event.execProc (li.location :: args)] := by
      simp only [Prod.mk.injEq] at h
      exact h.2.2.symm
    rw [hevs]
    rfl

/-- A release client serving the rolling "nightly" build, observed 25 hours
after its recorded installation. -/
def envNightly : Env :=
  { getRelease := fun s => if s = "nightly" then .ok ⟨"nightly"⟩ else .error (.remoteErr s)
    pipelineOk := fun _ => .ok ()
    now := 90000
    latestDuckVmRelease := .error (.remoteErr "offline")
    selfVersion := "1.0.0" }

/-- The same rolling-build client observed one hour after installation. -/
def envNightlyFresh : Env :=
  { getRelease := fun s => if s = "nightly" then .ok ⟨"nightly"⟩ else .error (.remoteErr s)
    pipelineOk := fun _ => .ok ()
    now := 3600
    latestDuckVmRelease := .error (.remoteErr "offline")
    selfVersion := "1.0.0" }

/-- An inventory holding the rolling build installed at time 0. -/
def cNightly : LocalConfig := ⟨[("nightly", ⟨"nightly", "loc", "0"⟩)], none⟩

/-- Claim C6 witness: at T + 25h the run performs exactly one re-install,
at T + 1h none. -/
theorem run_nightly_freshness_witness :
    countInstalls (Run envNightly cNightly "nightly" []).2.2 = 1 ∧
    countInstalls (Run envNightlyFresh cNightly "nightly" []).2.2 = 0 := by
  constructor
  · have h := run_nightly_freshness envNightly cNightly "nightly" [] ⟨"nightly", "loc", "0"⟩ 0
      (Run envNightly cNightly "nightly" []).2.1 (Run envNightly cNightly "nightly" []).2.2
      (by decide) rfl (by decide) rfl
    rw [h]
    decide
  · have h := run_nightly_freshness envNightlyFresh cNightly "nightly" [] ⟨"nightly", "loc", "0"⟩ 0
      (Run envNightlyFresh cNightly "nightly" []).2.1 (Run envNightlyFresh cNightly "nightly" []).2.2
      (by decide) rfl (by decide) rfl
    rw [h]
    decide

theorem setDefaultVersion_not_installed_ok {env : Env} {c : LocalConfig} {s : String}
    {c1 : LocalConfig} {evs1 : List Event}
    (hvi : VersionIsInstalled c s = false)
    (hI : InstallVersion env c s = (none, c1, evs1)) :
    SetDefaultVersion env c (some s) =
      (match GetLocalReleaseInfo c1 s with
      | .error _ => (some .nilDeref, c1, [Event.removeArtifact] ++ evs1)
      | .ok vti =>
        (none, { c1 with defaultVersion := some vti.version },
         [Event.removeArtifact] ++ evs1 ++
           [.symlinkFile vti.location DefaultDuckdbFile, .saveConfig])) := by
  simp only [SetDefaultVersion, hvi, Bool.false_eq_true, if_false, hI]

/-- Claim C5: SetDefault(none) clears defaultVersion and persists without
touching the installed map; SetDefault(v) for a v whose resolved key is not
installed first installs it, and on success records the resolved version as
the default, so that GetDefaultVersion returns an entry matching v. -/
theorem setDefault_semantics :
    (∀ (env : Env) (c : LocalConfig),
      SetDefaultVersion env c none =
        (none, ⟨c.localInstallations, none⟩, [.removeArtifact, .saveConfig])) ∧
    (∀ (env : Env) (c : LocalConfig) (s : String) (c' : LocalConfig) (evs : List Event),
      mapLookup c.localInstallations s = none →
      mapLookup c.localInstallations ("v" ++ s) = none →
      SetDefaultVersion env c (some s) = (none, c', evs) →
      ∃ r, (r = s ∨ r = "v" ++ s) ∧ c'.defaultVersion = some r ∧
        (∃ li, mapLookup c'.localInstallations r = some li ∧
          GetDefaultVersion c' = some li ∧ li.version = r) ∧
        Event.writeFile (VersionDir ++ "/" ++ DuckDBName ++ "-" ++ r) ∈ evs) := by
  constructor
  · intro env c
    rfl
  · intro env c s c' evs h1 h2 h
    have hvi : VersionIsInstalled c s = false := by
      unfold VersionIsInstalled
      rw [h1, h2]
      rfl
    rcases hieq : InstallVersion env c s with ⟨err1, c1, evs1⟩
    cases err1 with
    | some e =>
      exfalso
      have hbad : SetDefaultVersion env c (some s) =
          (some e, c1, [Event.removeArtifact] ++ evs1) := by
        simp only [SetDefaultVersion, hvi, Bool.false_eq_true, if_false, hieq]
      rw [hbad] at h
      simp at h
    | none =>
      obtain ⟨rel, hrel, hc1, hevs1⟩ := installVersion_success hieq
      rw [setDefaultVersion_not_installed_ok hvi hieq] at h
      rcases hg : GetLocalReleaseInfo c1 s with e | vti
      · rw [hg] at h
        simp at h
      · rw [hg] at h
        simp only [Prod.mk.injEq] at h
        obtain ⟨-, hc', hevs⟩ := h
        have hvti : vti = (⟨rel.version, VersionDir ++ "/" ++ DuckDBName ++ "-" ++ rel.version,
            timeMarshal env.now⟩ : LocalInstallationInfo) ∧
            (rel.version = s ∨ rel.version = "v" ++ s) := by
          rcases getLocalReleaseInfo_ok hg with hl | ⟨-, hl⟩
          · rw [hc1] at hl
            simp only at hl
            rw [mapLookup_mapInsert] at hl
            by_cases hs : s = rel.version
            · rw [if_pos hs] at hl
              cases hl
              exact ⟨rfl, Or.inl hs.symm⟩
            · rw [if_neg hs, h1] at hl
              cases hl
          · rw [hc1] at hl
            simp only at hl
            rw [mapLookup_mapInsert] at hl
            by_cases hs : "v" ++ s = rel.version
            · rw [if_pos hs] at hl
              cases hl
              exact ⟨rfl, Or.inr hs.symm⟩
            · rw [if_neg hs, h2] at hl
              cases hl
        obtain ⟨hvtiEq, hr⟩ := hvti
        refine ⟨rel.version, hr, ?_, ?_, ?_⟩
        · rw [← hc', hvtiEq]
        · refine ⟨⟨rel.version, VersionDir ++ "/" ++ DuckDBName ++ "-" ++ rel.version,
            timeMarshal env.now⟩, ?_, ?_, rfl⟩
          · rw [← hc']
            simp only
            rw [hc1]
            simp only
            rw [mapLookup_mapInsert, if_pos rfl]
          · rw [← hc', hvtiEq]
            unfold GetDefaultVersion
            simp only
            rw [hc1]
            simp only
            rw [mapLookup_mapInsert, if_pos rfl]
            rfl
        · rw [← hevs, hevs1]
          simp

/-- Claim C5 witness: setting an uninstalled "0.9.2" as default against the
tag-prefixing catalog installs it and records a matching default entry. -/
theorem setDefault_semantics_witness :
    ∃ r, (r = "0.9.2" ∨ r = "v" ++ "0.9.2") ∧
      (SetDefaultVersion envTagged ⟨[], none⟩ (some "0.9.2")).2.1.defaultVersion = some r ∧
      (∃ li, mapLookup (SetDefaultVersion envTagged ⟨[], none⟩
          (some "0.9.2")).2.1.localInstallations r = some li ∧
        GetDefaultVersion (SetDefaultVersion envTagged ⟨[], none⟩ (some "0.9.2")).2.1 =
          some li ∧ li.version = r) ∧
      Event.writeFile (VersionDir ++ "/" ++ DuckDBName ++ "-" ++ r) ∈
        (SetDefaultVersion envTagged ⟨[], none⟩ (some "0.9.2")).2.2 :=
  setDefault_semantics.2 envTagged ⟨[], none⟩ "0.9.2"
    (SetDefaultVersion envTagged ⟨[], none⟩ (some "0.9.2")).2.1
    (SetDefaultVersion envTagged ⟨[], none⟩ (some "0.9.2")).2.2
    rfl rfl rfl

theorem uninstallVersion_default_eq (env : Env) {c : LocalConfig} {s : String}
    {li : LocalInstallationInfo}
    (hvi : VersionIsInstalled c s = true)
    (hg : GetLocalReleaseInfo c s = .ok li)
    (hd : c.defaultVersion = some li.version) :
    UninstallVersion env c s =
      (none, ⟨mapDelete c.localInstallations li.version, none⟩,
       [.removeArtifact, .saveConfig,
        .removeFile ((mapLookup c.localInstallations li.version).getD default).location,
        .saveConfig]) := by
  simp only [UninstallVersion, SetDefaultVersion, hvi, if_true, hg, hd, if_pos]
  rfl

/-- Claim C3 (amended with inventory well-formedness): uninstalling the
version that is the current default first clears the default — the
artifact removal and the persist of the cleared inventory precede the
binary-file removal in the side-effect trace — then removes the binary and
the map entry; afterwards GetDefaultVersion returns none. -/
theorem uninstall_default_clears :
    ∀ (env : Env) (c : LocalConfig) (s r : String),
      WFConfig c →
      resolvedKey c s = some r →
      c.defaultVersion = some r →
      UninstallVersion env c s =
        (none, ⟨mapDelete c.localInstallations r, none⟩,
         [.removeArtifact, .saveConfig,
          .removeFile ((mapLookup c.localInstallations r).getD default).location,
          .saveConfig]) ∧
      GetDefaultVersion (UninstallVersion env c s).2.1 = none := by
  intro env c s r hwf hres hd
  have hkey : ∃ li, GetLocalReleaseInfo c s = .ok li ∧ li.version = r ∧
      VersionIsInstalled c s = true := by
    unfold resolvedKey at hres
    cases h1 : mapLookup c.localInstallations s with
    | some li =>
      rw [h1] at hres
      simp at hres
      refine ⟨li, ?_, ?_, ?_⟩
      · unfold GetLocalReleaseInfo
        rw [h1]
      · rw [wf_lookup_version hwf h1, hres]
      · unfold VersionIsInstalled
        rw [h1]
    | none =>
      rw [h1] at hres
      cases h2 : mapLookup c.localInstallations ("v" ++ s) with
      | some li =>
        rw [h2] at hres
        simp at hres
        refine ⟨li, ?_, ?_, ?_⟩
        · unfold GetLocalReleaseInfo
          rw [h1, h2]
        · rw [wf_lookup_version hwf h2]
          exact hres
        · unfold VersionIsInstalled
          rw [h1, h2]
          rfl
      | none =>
        rw [h2] at hres
        simp at hres
  obtain ⟨li, hg, hliv, hvi⟩ := hkey
  have heq := uninstallVersion_default_eq env hvi hg (by rw [hd, hliv])
  rw [hliv] at heq
  refine ⟨heq, ?_⟩
  rw [heq]
  rfl

/-- The concrete default-uninstall scenario used for the C3 witness. -/
def cDefaulted : LocalConfig :=
  ⟨[("v1.0.0", ⟨"v1.0.0", "binloc", "0"⟩)], some "v1.0.0"⟩

/-- Claim C3 witness: uninstalling the default "1.0.0" (stored under
"v1.0.0") yields the clear-then-remove trace and no default remains. -/
theorem uninstall_default_clears_witness :
    UninstallVersion envOffline cDefaulted "1.0.0" =
      (none, ⟨mapDelete cDefaulted.localInstallations "v1.0.0", none⟩,
       [.removeArtifact, .saveConfig,
        .removeFile ((mapLookup cDefaulted.localInstallations "v1.0.0").getD default).location,
        .saveConfig]) ∧
    GetDefaultVersion (UninstallVersion envOffline cDefaulted "1.0.0").2.1 = none :=
  uninstall_default_clears envOffline cDefaulted "1.0.0" "v1.0.0"
    (by unfold WFConfig; decide) (by decide) rfl

/-- Claim C3 counterexample: in an inventory whose entry's version field
differs from its map key, uninstalling the default succeeds yet leaves
defaultVersion set — the code compares the default against the resolved
entry's version field, not against the resolved key. -/
theorem uninstall_default_counterexample :
    resolvedKey ⟨[("k", ⟨"x", "loc", "0"⟩)], some "k"⟩ "k" = some "k" ∧
    (UninstallVersion envOffline ⟨[("k", ⟨"x", "loc", "0"⟩)], some "k"⟩ "k").1 = none ∧
    (UninstallVersion envOffline ⟨[("k", ⟨"x", "loc", "0"⟩)], some "k"⟩
        "k").2.1.defaultVersion = some "k" ∧
    GetDefaultVersion
        (UninstallVersion envOffline ⟨[("k", ⟨"x", "loc", "0"⟩)], some "k"⟩ "k").2.1
      ≠ none := by
  decide

end Manager
